import Mathlib

/-!
Verification of the cxgb4 debugfs table-extraction subsystem
(`drivers/net/ethernet/chelsio/cxgb4/cxgb4_debugfs.c`).

The C code is shallowly embedded: machine integers become `Nat`/`Int` with
explicit `% 2^w` where wraparound matters, `loff_t` becomes `Int`, pointers
into the snapshot buffer are represented by the row index they denote, and
fallible paths return `Option`/`Except` or an explicit error code.
-/

/-! ## Generic paginated table support (`seq_tab`)

The `struct seq_tab` itself is declared in a header that is not part of the
sources; its fields (`rows`, `width`, `skip_first`, `data`, `show`) are pinned
by their uses in `cxgb4_debugfs.c` (`seq_open_tab` stores `rows`, `width`,
`skip_first = (have_header != 0)`).  The `data` buffer and the `show` callback
do not influence the iteration indices, so a table is modelled by the three
fields the iteration logic reads.  A pointer `&tb->data[pos * tb->width]`
returned by `seq_tab_get_idx` is represented by the (possibly negative,
`loff_t`-derived) row index `pos`. -/
structure seq_tab where
  rows : Nat
  width : Nat
  skip_first : Bool
deriving DecidableEq

/-- Value yielded to the seq_file layer: `SEQ_START_TOKEN` or a row pointer,
the latter represented by its row index. -/
inductive SeqV where
  | header
  | row (i : Int)
deriving DecidableEq

/-- Embedding of `seq_tab_get_idx`: `pos -= tb->skip_first;
return pos >= tb->rows ? NULL : &tb->data[pos * tb->width];`.
`pos` is a signed `loff_t`; the comparison against the `unsigned int`
`tb->rows` promotes `rows` to signed 64-bit, hence `Int` comparison. -/
def seq_tab_get_idx (tb : seq_tab) (pos : Int) : Option Int :=
  let p := pos - (if tb.skip_first then 1 else 0)
  if p ≥ (tb.rows : Int) then none else some p

/-- Embedding of `seq_tab_start`. -/
def seq_tab_start (tb : seq_tab) (pos : Int) : Option SeqV :=
  if tb.skip_first ∧ pos = 0 then some SeqV.header
  else (seq_tab_get_idx tb pos).map SeqV.row

/-- Embedding of `seq_tab_next`: fetches the element at `*pos + 1` and
increments `*pos` only when a row is returned. -/
def seq_tab_next (tb : seq_tab) (pos : Int) : Option SeqV × Int :=
  match seq_tab_get_idx tb (pos + 1) with
  | some i => (some (SeqV.row i), pos + 1)
  | none => (none, pos)

/-- Embedding of `seq_tab_trim`: returns `(-EINVAL, p)` unchanged when
`new_rows > p->rows`, else `(0, p with rows := new_rows)`. -/
def seq_tab_trim (p : seq_tab) (new_rows : Nat) : Int × seq_tab :=
  if new_rows > p.rows then (-22, p) else (0, { p with rows := new_rows })

/-- The sequential-iteration protocol from position 0: `start`, then `k`
calls to `next`, threading the seq_file position. -/
def seq_tab_iter (tb : seq_tab) : Nat → Option SeqV × Int
  | 0 => (seq_tab_start tb 0, 0)
  | k + 1 => seq_tab_next tb (seq_tab_iter tb k).2

lemma seq_tab_get_idx_eq (tb : seq_tab) (pos : Int) :
    seq_tab_get_idx tb pos =
      if (tb.rows : Int) ≤ pos - (if tb.skip_first then 1 else 0) then none
      else some (pos - (if tb.skip_first then 1 else 0)) := by
  unfold seq_tab_get_idx
  by_cases h : (tb.rows : Int) ≤ pos - (if tb.skip_first then 1 else 0)
  · rw [if_pos h]
  · rw [if_neg h]

lemma seq_tab_get_idx_lt (tb : seq_tab) (pos i : Int)
    (h : seq_tab_get_idx tb pos = some i) : i < (tb.rows : Int) := by
  rw [seq_tab_get_idx_eq] at h
  by_cases hge : (tb.rows : Int) ≤ pos - (if tb.skip_first then 1 else 0)
  · rw [if_pos hge] at h; cases h
  · rw [if_neg hge] at h
    cases h
    omega

lemma seq_tab_next_eq (tb : seq_tab) (pos : Int) :
    seq_tab_next tb pos =
      if (tb.rows : Int) ≤ pos + 1 - (if tb.skip_first then 1 else 0) then (none, pos)
      else (some (SeqV.row (pos + 1 - (if tb.skip_first then 1 else 0))), pos + 1) := by
  unfold seq_tab_next
  rw [seq_tab_get_idx_eq]
  by_cases h : (tb.rows : Int) ≤ pos + 1 - (if tb.skip_first then 1 else 0)
  · simp only [if_pos h]
  · simp only [if_neg h]

lemma seq_tab_iter_succ (tb : seq_tab) (k : Nat) :
    seq_tab_iter tb (k + 1) = seq_tab_next tb (seq_tab_iter tb k).2 := rfl

lemma seq_tab_iter_zero (tb : seq_tab) :
    seq_tab_iter tb 0 = (seq_tab_start tb 0, 0) := rfl

lemma seq_tab_iter_nohdr (tb : seq_tab) (hs : tb.skip_first = false) :
    ∀ k, k < tb.rows → seq_tab_iter tb k = (some (SeqV.row (k : Int)), (k : Int)) := by
  intro k
  induction k with
  | zero =>
    intro h0
    rw [seq_tab_iter_zero]
    unfold seq_tab_start
    rw [hs, seq_tab_get_idx_eq, hs]
    rw [if_neg (by simp)]
    rw [if_neg (by simp; omega)]
    simp
  | succ k ih =>
    intro hk
    have hklt : k < tb.rows := Nat.lt_of_succ_lt hk
    rw [seq_tab_iter_succ, ih hklt, seq_tab_next_eq, hs]
    rw [if_neg (by simp; omega)]
    simp

lemma seq_tab_iter_hdr0 (tb : seq_tab) (hs : tb.skip_first = true) :
    seq_tab_iter tb 0 = (some SeqV.header, 0) := by
  rw [seq_tab_iter_zero]
  unfold seq_tab_start
  rw [hs]
  simp

lemma seq_tab_iter_hdr (tb : seq_tab) (hs : tb.skip_first = true) :
    ∀ k, k < tb.rows → seq_tab_iter tb (k + 1) = (some (SeqV.row (k : Int)), (k : Int) + 1) := by
  intro k
  induction k with
  | zero =>
    intro h0
    rw [seq_tab_iter_succ, seq_tab_iter_hdr0 tb hs, seq_tab_next_eq, hs]
    rw [if_neg (by simp; omega)]
    simp
  | succ k ih =>
    intro hk
    have hklt : k < tb.rows := Nat.lt_of_succ_lt hk
    rw [seq_tab_iter_succ, ih hklt, seq_tab_next_eq, hs]
    rw [if_neg (by simp; omega)]
    simp

lemma seq_tab_iter_end (tb : seq_tab) :
    (seq_tab_iter tb (tb.rows + (if tb.skip_first then 1 else 0))).1 = none := by
  by_cases hs : tb.skip_first
  · have hs1 : tb.skip_first = true := hs
    rw [if_pos hs]
    rcases Nat.eq_zero_or_pos tb.rows with h0 | hpos
    · rw [h0, Nat.zero_add, seq_tab_iter_succ, seq_tab_iter_hdr0 tb hs1, seq_tab_next_eq, hs1]
      rw [if_pos (by simp; omega)]
    · obtain ⟨r, hreq⟩ : ∃ r, tb.rows = r + 1 := ⟨tb.rows - 1, by omega⟩
      have hrlt : r < tb.rows := by omega
      have h1 := seq_tab_iter_hdr tb hs1 r hrlt
      have heq : tb.rows + 1 = (r + 1) + 1 := by omega
      rw [heq, seq_tab_iter_succ, h1, seq_tab_next_eq, hs1]
      rw [if_pos (by simp; omega)]
  · have hs0 : tb.skip_first = false := by simpa using hs
    rw [hs0]
    simp only [Bool.false_eq_true, if_false, Nat.add_zero]
    rcases Nat.eq_zero_or_pos tb.rows with h0 | hpos
    · rw [h0, seq_tab_iter_zero]
      unfold seq_tab_start
      rw [hs0, seq_tab_get_idx_eq, hs0]
      rw [if_neg (by simp)]
      rw [if_pos (by simp; omega)]
      simp
    · obtain ⟨r, hreq⟩ : ∃ r, tb.rows = r + 1 := ⟨tb.rows - 1, by omega⟩
      have hrlt : r < tb.rows := by omega
      have h1 := seq_tab_iter_nohdr tb hs0 r hrlt
      rw [hreq, seq_tab_iter_succ, h1, seq_tab_next_eq, hs0]
      rw [if_pos (by simp; omega)]

lemma seq_tab_iter_pos_nonneg (tb : seq_tab) : ∀ k, 0 ≤ (seq_tab_iter tb k).2 := by
  intro k
  induction k with
  | zero => rw [seq_tab_iter_zero]
  | succ k ih =>
    rw [seq_tab_iter_succ, seq_tab_next_eq]
    by_cases h : (tb.rows : Int) ≤ (seq_tab_iter tb k).2 + 1 - (if tb.skip_first then 1 else 0)
    · rw [if_pos h]; exact ih
    · rw [if_neg h]; simp; omega

lemma seq_tab_iter_row_bounds (tb : seq_tab) :
    ∀ k i, (seq_tab_iter tb k).1 = some (SeqV.row i) →
      0 ≤ i ∧ i < (tb.rows : Int) := by
  intro k i h
  cases k with
  | zero =>
    rw [seq_tab_iter_zero] at h
    simp only at h
    unfold seq_tab_start at h
    by_cases hc : tb.skip_first ∧ (0 : Int) = 0
    · rw [if_pos hc] at h; cases h
    · rw [if_neg hc] at h
      have hs0 : tb.skip_first = false := by
        by_cases hb : tb.skip_first
        · exact absurd ⟨hb, rfl⟩ hc
        · simpa using hb
      rw [seq_tab_get_idx_eq, hs0] at h
      by_cases hge : (tb.rows : Int) ≤ (0 : Int) - (if (false : Bool) then 1 else 0)
      · rw [if_pos hge] at h; cases h
      · rw [if_neg hge] at h
        simp at h hge
        omega
  | succ k =>
    have hp := seq_tab_iter_pos_nonneg tb k
    rw [seq_tab_iter_succ, seq_tab_next_eq] at h
    by_cases hge : (tb.rows : Int) ≤ (seq_tab_iter tb k).2 + 1 - (if tb.skip_first then 1 else 0)
    · rw [if_pos hge] at h; cases h
    · rw [if_neg hge] at h
      simp only at h
      cases h
      constructor
      · by_cases hb : tb.skip_first <;> simp [hb] <;> omega
      · by_cases hb : tb.skip_first <;> simp [hb] at hge ⊢ <;> omega

/-- C1: a Paginated Table Cursor started and advanced exactly `row_count`
times (`row_count + 1` when a synthetic header is present) reaches End, and
no `start` or `advance` ever returns a row whose index is `≥ row_count`
(`seq_tab_get_idx` underlies both entry points). -/
theorem seq_tab_c1_cursor_exhaustion (tb : seq_tab) :
    (seq_tab_iter tb (tb.rows + (if tb.skip_first then 1 else 0))).1 = none ∧
    (∀ pos i, seq_tab_get_idx tb pos = some i → i < (tb.rows : Int)) ∧
    (∀ k i, (seq_tab_iter tb k).1 = some (SeqV.row i) → 0 ≤ i ∧ i < (tb.rows : Int)) :=
  ⟨seq_tab_iter_end tb, fun pos i h => seq_tab_get_idx_lt tb pos i h,
   seq_tab_iter_row_bounds tb⟩

/-- Witness for C1 at a concrete table (2 rows, headered): the third step
after `start` is End, and a returned row index is in bounds. -/
theorem seq_tab_c1_witness :
    (seq_tab_iter ⟨2, 4, true⟩ (2 + (if true then 1 else 0))).1 = none ∧
    (seq_tab_iter ⟨2, 4, true⟩ 1).1 = some (SeqV.row 0) ∧
    (0 ≤ (0 : Int) ∧ (0 : Int) < ((2 : Nat) : Int)) :=
  ⟨(seq_tab_c1_cursor_exhaustion ⟨2, 4, true⟩).1, by decide,
   (seq_tab_c1_cursor_exhaustion ⟨2, 4, true⟩).2.2 1 0 (by decide)⟩

/-- C4: `trim(n)` with `n ≤ row_count` succeeds (returns 0), reduces the row
count to `n`, and all subsequent iteration stops after `n` rows; `trim(n)`
with `n > row_count` fails with `-EINVAL` and leaves the table unchanged. -/
theorem seq_tab_c4_trim (tb : seq_tab) (n : Nat) :
    (n ≤ tb.rows →
      (seq_tab_trim tb n).1 = 0 ∧
      (seq_tab_trim tb n).2 = { tb with rows := n } ∧
      (seq_tab_iter (seq_tab_trim tb n).2
        (n + (if tb.skip_first then 1 else 0))).1 = none ∧
      (∀ k i, (seq_tab_iter (seq_tab_trim tb n).2 k).1 = some (SeqV.row i) →
        i < (n : Int))) ∧
    (tb.rows < n → (seq_tab_trim tb n).1 = -22 ∧ (seq_tab_trim tb n).2 = tb) := by
  constructor
  · intro hle
    have hnot : ¬ (n > tb.rows) := by omega
    have htrim : seq_tab_trim tb n = (0, { tb with rows := n }) := by
      unfold seq_tab_trim; rw [if_neg hnot]
    refine ⟨by rw [htrim], by rw [htrim], ?_, ?_⟩
    · rw [htrim]
      have := seq_tab_iter_end { tb with rows := n }
      simpa using this
    · intro k i h
      rw [htrim] at h
      have := (seq_tab_iter_row_bounds { tb with rows := n } k i h).2
      simpa using this
  · intro hgt
    have : n > tb.rows := hgt
    unfold seq_tab_trim
    rw [if_pos this]
    exact ⟨rfl, rfl⟩

/-- Witness for C4 at a concrete table: trimming 3 rows down to 2 succeeds
and iteration over the trimmed table ends after 2 steps; trimming up to 5
fails with `-EINVAL` and leaves the table unchanged. -/
theorem seq_tab_c4_witness :
    ((2 : Nat) ≤ 3 ∧
      (seq_tab_trim ⟨3, 8, false⟩ 2).1 = 0 ∧
      (seq_tab_iter (seq_tab_trim ⟨3, 8, false⟩ 2).2
        (2 + (if (false : Bool) then 1 else 0))).1 = none) ∧
    ((3 : Nat) < 5 ∧ seq_tab_trim ⟨3, 8, false⟩ 5 = (-22, ⟨3, 8, false⟩)) := by
  have h1 := (seq_tab_c4_trim ⟨3, 8, false⟩ 2).1 (by decide)
  have h2 := (seq_tab_c4_trim ⟨3, 8, false⟩ 5).2 (by decide)
  exact ⟨⟨by decide, h1.1, h1.2.2.1⟩, ⟨by decide, by rw [Prod.ext_iff]; exact ⟨h2.1, h2.2⟩⟩⟩

/-! ## Firmware device log (`devlog`)

The entry layout `struct fw_devlog_e` comes from a firmware API header that is
not among the sources; the fields the debugfs code reads are `seqno` (32-bit,
stored big-endian, used via `be32_to_cpu`) and `timestamp` (64-bit, compared
against 0, a zero value marking an unused slot).  The model stores the
cpu-order values the code computes; the level/facility/format fields only
feed text formatting and are elided. -/
structure fw_devlog_e where
  seqno : Nat
  timestamp : Nat
deriving DecidableEq

instance : Inhabited fw_devlog_e := ⟨⟨0, 0⟩⟩

/-- Embedding of the scan loop of `devlog_open`:
`for (fseqno = ~((u32)0), index = 0; index < nentries; index++) { if
(e->timestamp == 0) continue; seqno = be32_to_cpu(e->seqno); if (seqno <
fseqno) { fseqno = seqno; dinfo->first = index; } }`.
Arguments: remaining entries, running minimum `fseqno`, recorded `first`,
current `index`. -/
def devlog_scan : List fw_devlog_e → Nat → Nat → Nat → Nat × Nat
  | [], fseqno, first, _ => (fseqno, first)
  | e :: rest, fseqno, first, index =>
    if e.timestamp = 0 then devlog_scan rest fseqno first (index + 1)
    else if e.seqno < fseqno then devlog_scan rest e.seqno index (index + 1)
    else devlog_scan rest fseqno first (index + 1)

/-- The `first` index computed by `devlog_open`: `dinfo->first` starts at 0
and the scan runs with `fseqno = ~((u32)0) = 2^32 - 1`. -/
def devlog_first (log : List fw_devlog_e) : Nat :=
  (devlog_scan log (2 ^ 32 - 1) 0 0).2

/-- Embedding of the index remapping inside `devlog_show`:
`index = dinfo->first + fidx; if (index >= dinfo->nentries) index -=
dinfo->nentries;`. -/
def devlog_index (first nentries fidx : Nat) : Nat :=
  let index := first + fidx
  if index ≥ nentries then index - nentries else index

/-- State captured by `devlog_open` for the iterator. -/
structure devlog_info where
  nentries : Nat
  first : Nat
  log : List fw_devlog_e
deriving DecidableEq

/-- Rendering decision of `devlog_show` (the formatted text is elided; the
firmware-supplied format string is trusted per the spec). -/
inductive DevlogLine where
  | header
  | skip
  | entry (seqno timestamp : Nat)
deriving DecidableEq

/-- Embedding of `devlog_show`.  The seq_file value `v` is the integer the
iterator produced: `SEQ_START_TOKEN = 1`, otherwise `v = pos + 1` and
`fidx = v - 2`.  A zero-timestamp slot renders nothing (`return 0`). -/
def devlog_show (d : devlog_info) (v : Nat) : DevlogLine :=
  if v = 1 then DevlogLine.header
  else
    let fidx := v - 2
    let e := d.log.getD (devlog_index d.first d.nentries fidx) default
    if e.timestamp = 0 then DevlogLine.skip
    else DevlogLine.entry e.seqno e.timestamp

/-- Embedding of `devlog_get_idx`: `if (pos > dinfo->nentries) return NULL;
return (void *)(uintptr_t)(pos + 1);`. -/
def devlog_get_idx (d : devlog_info) (pos : Nat) : Option Nat :=
  if pos > d.nentries then none else some (pos + 1)

/-- Embedding of `devlog_next`: `(*pos)++;` happens unconditionally, then the
value for the new position is fetched. -/
def devlog_next (d : devlog_info) (pos : Nat) : Option Nat × Nat :=
  (devlog_get_idx d (pos + 1), pos + 1)

lemma devlog_scan_characterize :
    ∀ (log : List fw_devlog_e) (fs fi idx : Nat),
      (devlog_scan log fs fi idx = (fs, fi) ∧
        (∀ e ∈ log, e.timestamp ≠ 0 → fs ≤ e.seqno)) ∨
      (∃ k, ∃ (hk : k < log.length),
        (log.get ⟨k, hk⟩).timestamp ≠ 0 ∧
        (log.get ⟨k, hk⟩).seqno < fs ∧
        devlog_scan log fs fi idx = ((log.get ⟨k, hk⟩).seqno, idx + k) ∧
        (∀ j, ∀ (hj : j < log.length), (log.get ⟨j, hj⟩).timestamp ≠ 0 →
          (log.get ⟨k, hk⟩).seqno ≤ (log.get ⟨j, hj⟩).seqno) ∧
        (∀ j, ∀ (hj : j < log.length), j < k → (log.get ⟨j, hj⟩).timestamp ≠ 0 →
          (log.get ⟨k, hk⟩).seqno < (log.get ⟨j, hj⟩).seqno)) := by
  intro log
  induction log with
  | nil =>
    intro fs fi idx
    left
    exact ⟨rfl, by intro e he; cases he⟩
  | cons e rest ih =>
    intro fs fi idx
    by_cases hts : e.timestamp = 0
    · have hstep : devlog_scan (e :: rest) fs fi idx = devlog_scan rest fs fi (idx + 1) := by
        simp only [devlog_scan]; rw [if_pos hts]
      rcases ih fs fi (idx + 1) with ⟨heq, hbd⟩ | ⟨k, hk, hkts, hklt, heq, hmin, hstrict⟩
      · left
        refine ⟨by rw [hstep, heq], ?_⟩
        intro x hx hxts
        rcases List.mem_cons.1 hx with hx0 | hx1
        · subst hx0; exact absurd hts hxts
        · exact hbd x hx1 hxts
      · right
        refine ⟨k + 1, by simpa using Nat.succ_lt_succ hk, by simpa using hkts,
          by simpa using hklt, ?_, ?_, ?_⟩
        · rw [hstep, heq]
          have harith : idx + 1 + k = idx + (k + 1) := by omega
          rw [harith]
          rfl
        · intro j hj hjts
          cases j with
          | zero => simp at hjts; exact absurd hts hjts
          | succ j' =>
            have hj' : j' < rest.length := by simpa using hj
            have := hmin j' hj' (by simpa using hjts)
            simp at this ⊢
            omega
        · intro j hj hjlt hjts
          cases j with
          | zero => simp at hjts; exact absurd hts hjts
          | succ j' =>
            have hj' : j' < rest.length := by simpa using hj
            have := hstrict j' hj' (by omega) (by simpa using hjts)
            simp at this ⊢
            omega
    · by_cases hlt : e.seqno < fs
      · have hstep : devlog_scan (e :: rest) fs fi idx = devlog_scan rest e.seqno idx (idx + 1) := by
          simp only [devlog_scan]; rw [if_neg hts, if_pos hlt]
        rcases ih e.seqno idx (idx + 1) with ⟨heq, hbd⟩ | ⟨k, hk, hkts, hklt, heq, hmin, hstrict⟩
        · right
          refine ⟨0, by simp, by simpa using hts, by simpa using hlt, ?_, ?_, ?_⟩
          · rw [hstep, heq]; simp
          · intro j hj hjts
            cases j with
            | zero => simp
            | succ j' =>
              have hj' : j' < rest.length := by simpa using hj
              have := hbd (rest.get ⟨j', hj'⟩) (List.get_mem rest j' hj') (by simpa using hjts)
              simp at this ⊢
              omega
          · intro j hj hjlt hjts
            omega
        · right
          refine ⟨k + 1, by simpa using Nat.succ_lt_succ hk, by simpa using hkts, ?_, ?_, ?_, ?_⟩
          · have hke : (rest.get ⟨k, hk⟩).seqno < e.seqno := hklt
            simp at hke ⊢
            omega
          · rw [hstep, heq]
            have harith : idx + 1 + k = idx + (k + 1) := by omega
            rw [harith]
            rfl
          · intro j hj hjts
            cases j with
            | zero =>
              have hke : (rest.get ⟨k, hk⟩).seqno < e.seqno := hklt
              simp at hke ⊢
              omega
            | succ j' =>
              have hj' : j' < rest.length := by simpa using hj
              have := hmin j' hj' (by simpa using hjts)
              simp at this ⊢
              omega
          · intro j hj hjlt hjts
            cases j with
            | zero =>
              have hke : (rest.get ⟨k, hk⟩).seqno < e.seqno := hklt
              simp at hke ⊢
              omega
            | succ j' =>
              have hj' : j' < rest.length := by simpa using hj
              have := hstrict j' hj' (by omega) (by simpa using hjts)
              simp at this ⊢
              omega
      · have hstep : devlog_scan (e :: rest) fs fi idx = devlog_scan rest fs fi (idx + 1) := by
          simp only [devlog_scan]; rw [if_neg hts, if_neg hlt]
        rcases ih fs fi (idx + 1) with ⟨heq, hbd⟩ | ⟨k, hk, hkts, hklt, heq, hmin, hstrict⟩
        · left
          refine ⟨by rw [hstep, heq], ?_⟩
          intro x hx hxts
          rcases List.mem_cons.1 hx with hx0 | hx1
          · subst hx0; omega
          · exact hbd x hx1 hxts
        · right
          refine ⟨k + 1, by simpa using Nat.succ_lt_succ hk, by simpa using hkts,
            by simpa using hklt, ?_, ?_, ?_⟩
          · rw [hstep, heq]
            have harith : idx + 1 + k = idx + (k + 1) := by omega
            rw [harith]
            rfl
          · intro j hj hjts
            cases j with
            | zero =>
              have h1 : (rest.get ⟨k, hk⟩).seqno < fs := hklt
              simp at h1 ⊢
              omega
            | succ j' =>
              have hj' : j' < rest.length := by simpa using hj
              have := hmin j' hj' (by simpa using hjts)
              simp at this ⊢
              omega
          · intro j hj hjlt hjts
            cases j with
            | zero =>
              have h1 : (rest.get ⟨k, hk⟩).seqno < fs := hklt
              simp at h1 ⊢
              omega
            | succ j' =>
              have hj' : j' < rest.length := by simpa using hj
              have := hstrict j' hj' (by omega) (by simpa using hjts)
              simp at this ⊢
              omega

/-- C2 counterexample: the scan's running minimum starts at `~0u = 2^32 - 1`
and only a strictly smaller sequence number updates `first`.  With entries
`[{seqno 0, ts 0}, {seqno 2^32 - 1, ts 1}]` the only nonzero-timestamp entry
(index 1) carries the maximal sequence number, so `first` stays at its
initialisation 0 — an index whose entry has timestamp 0 — although the claim
requires the index of a nonzero-timestamp minimal entry (index 1). -/
theorem devlog_c2_counterexample :
    devlog_first [⟨0, 0⟩, ⟨4294967295, 1⟩] = 0 ∧
    (([⟨0, 0⟩, ⟨4294967295, 1⟩] : List fw_devlog_e).get ⟨0, by decide⟩).timestamp = 0 ∧
    (([⟨0, 0⟩, ⟨4294967295, 1⟩] : List fw_devlog_e).get ⟨1, by decide⟩).timestamp ≠ 0 ∧
    devlog_first [⟨0, 0⟩, ⟨4294967295, 1⟩] ≠ 1 := by
  refine ⟨by decide, by decide, by decide, by decide⟩

/-- C2 (amended): provided some nonzero-timestamp entry has a sequence number
strictly below the initialised running minimum `2^32 - 1`, `devlog_open`
records in `first` the index of a nonzero-timestamp entry whose sequence
number is minimal among all nonzero-timestamp entries; and when every entry
has a zero timestamp `devlog_show` never renders an entry. -/
theorem devlog_c2_first_min :
    (∀ log : List fw_devlog_e,
      (∃ i, ∃ (hi : i < log.length), (log.get ⟨i, hi⟩).timestamp ≠ 0 ∧
        (log.get ⟨i, hi⟩).seqno < 2 ^ 32 - 1) →
      ∃ (hf : devlog_first log < log.length),
        (log.get ⟨devlog_first log, hf⟩).timestamp ≠ 0 ∧
        ∀ j, ∀ (hj : j < log.length), (log.get ⟨j, hj⟩).timestamp ≠ 0 →
          (log.get ⟨devlog_first log, hf⟩).seqno ≤ (log.get ⟨j, hj⟩).seqno) ∧
    (∀ d : devlog_info, (∀ e ∈ d.log, e.timestamp = 0) →
      ∀ v s t, devlog_show d v ≠ DevlogLine.entry s t) := by
  constructor
  · intro log hex
    rcases devlog_scan_characterize log (2 ^ 32 - 1) 0 0 with ⟨_, hbd⟩ | h
    · obtain ⟨i, hi, hits, hilt⟩ := hex
      have := hbd (log.get ⟨i, hi⟩) (List.get_mem log i hi) hits
      omega
    · obtain ⟨k, hk, hkts, _, heq, hmin, _⟩ := h
      have hfirst : devlog_first log = k := by
        unfold devlog_first
        rw [heq]
        simp
      rw [hfirst]
      exact ⟨hk, hkts, hmin⟩
  · intro d hall v s t
    unfold devlog_show
    by_cases hv : v = 1
    · rw [if_pos hv]
      intro hcon
      cases hcon
    · rw [if_neg hv]
      have hts : (d.log.getD (devlog_index d.first d.nentries (v - 2)) default).timestamp = 0 := by
        rcases Nat.lt_or_ge (devlog_index d.first d.nentries (v - 2)) d.log.length with hlt | hge
        · rw [List.getD_eq_getElem d.log default hlt]
          exact hall _ (List.getElem_mem hlt)
        · rw [List.getD_eq_default d.log default hge]
          rfl
      rw [if_pos hts]
      intro hcon
      cases hcon

/-- Witness for C2 on the claim's example `[5, 1, 3]` (all timestamps
nonzero): `first` is 1, the index holding sequence number 1, and it is the
nonzero-timestamp minimum; plus a rendering instance with all-zero
timestamps. -/
theorem devlog_c2_witness :
    (∃ (hf : devlog_first [⟨5, 1⟩, ⟨1, 1⟩, ⟨3, 1⟩] <
        ([⟨5, 1⟩, ⟨1, 1⟩, ⟨3, 1⟩] : List fw_devlog_e).length),
      (([⟨5, 1⟩, ⟨1, 1⟩, ⟨3, 1⟩] : List fw_devlog_e).get
        ⟨devlog_first [⟨5, 1⟩, ⟨1, 1⟩, ⟨3, 1⟩], hf⟩).timestamp ≠ 0 ∧
      ∀ j, ∀ (hj : j < ([⟨5, 1⟩, ⟨1, 1⟩, ⟨3, 1⟩] : List fw_devlog_e).length),
        (([⟨5, 1⟩, ⟨1, 1⟩, ⟨3, 1⟩] : List fw_devlog_e).get ⟨j, hj⟩).timestamp ≠ 0 →
        (([⟨5, 1⟩, ⟨1, 1⟩, ⟨3, 1⟩] : List fw_devlog_e).get
          ⟨devlog_first [⟨5, 1⟩, ⟨1, 1⟩, ⟨3, 1⟩], hf⟩).seqno ≤
          (([⟨5, 1⟩, ⟨1, 1⟩, ⟨3, 1⟩] : List fw_devlog_e).get ⟨j, hj⟩).seqno) ∧
    devlog_first [⟨5, 1⟩, ⟨1, 1⟩, ⟨3, 1⟩] = 1 ∧
    devlog_show ⟨2, 0, [⟨7, 0⟩, ⟨9, 0⟩]⟩ 2 ≠ DevlogLine.entry 7 0 :=
  ⟨devlog_c2_first_min.1 [⟨5, 1⟩, ⟨1, 1⟩, ⟨3, 1⟩] ⟨1, by decide, by decide, by decide⟩,
   by decide,
   devlog_c2_first_min.2 ⟨2, 0, [⟨7, 0⟩, ⟨9, 0⟩]⟩ (by decide) 2 7 0⟩

/-- C10 counterexample: with entries `[{ts 0}, {seqno 2^32 - 1, ts 1},
{seqno 2^32 - 1, ts 1}]` two nonzero-timestamp entries (indices 1 and 2)
share the minimal sequence number, but because `2^32 - 1` never beats the
initialised running minimum, `first` stays 0, not the lowest sharing
index 1. -/
theorem devlog_c10_counterexample :
    devlog_first [⟨0, 0⟩, ⟨4294967295, 1⟩, ⟨4294967295, 1⟩] = 0 ∧
    (([⟨0, 0⟩, ⟨4294967295, 1⟩, ⟨4294967295, 1⟩] : List fw_devlog_e).get
      ⟨1, by decide⟩).timestamp ≠ 0 ∧
    (([⟨0, 0⟩, ⟨4294967295, 1⟩, ⟨4294967295, 1⟩] : List fw_devlog_e).get
      ⟨2, by decide⟩).timestamp ≠ 0 ∧
    (([⟨0, 0⟩, ⟨4294967295, 1⟩, ⟨4294967295, 1⟩] : List fw_devlog_e).get ⟨1, by decide⟩).seqno =
      (([⟨0, 0⟩, ⟨4294967295, 1⟩, ⟨4294967295, 1⟩] : List fw_devlog_e).get ⟨2, by decide⟩).seqno ∧
    devlog_first [⟨0, 0⟩, ⟨4294967295, 1⟩, ⟨4294967295, 1⟩] ≠ 1 := by
  refine ⟨by decide, by decide, by decide, by decide, by decide⟩

/-- C10 (amended): provided some nonzero-timestamp entry has a sequence
number strictly below `2^32 - 1`, the recorded `first` is the lowest physical
index achieving the minimum: every earlier nonzero-timestamp entry has a
strictly larger sequence number (the comparison is strict less-than, so later
equal entries do not replace the recorded minimum). -/
theorem devlog_c10_lowest_index (log : List fw_devlog_e)
    (hex : ∃ i, ∃ (hi : i < log.length), (log.get ⟨i, hi⟩).timestamp ≠ 0 ∧
      (log.get ⟨i, hi⟩).seqno < 2 ^ 32 - 1) :
    ∃ (hf : devlog_first log < log.length),
      ∀ j, ∀ (hj : j < log.length), j < devlog_first log →
        (log.get ⟨j, hj⟩).timestamp ≠ 0 →
        (log.get ⟨devlog_first log, hf⟩).seqno < (log.get ⟨j, hj⟩).seqno := by
  rcases devlog_scan_characterize log (2 ^ 32 - 1) 0 0 with ⟨_, hbd⟩ | h
  · obtain ⟨i, hi, hits, hilt⟩ := hex
    have := hbd (log.get ⟨i, hi⟩) (List.get_mem log i hi) hits
    omega
  · obtain ⟨k, hk, _, _, heq, _, hstrict⟩ := h
    have hfirst : devlog_first log = k := by
      unfold devlog_first
      rw [heq]
      simp
    rw [hfirst]
    exact ⟨hk, fun j hj hjk hjts => hstrict j hj hjk hjts⟩

/-- Witness for C10: sequence numbers `[5, 1, 1]` (nonzero timestamps) tie at
the minimum on indices 1 and 2; `first` is 1 and the entry before it has a
strictly larger sequence number. -/
theorem devlog_c10_witness :
    (∃ (hf : devlog_first [⟨5, 1⟩, ⟨1, 1⟩, ⟨1, 1⟩] <
        ([⟨5, 1⟩, ⟨1, 1⟩, ⟨1, 1⟩] : List fw_devlog_e).length),
      ∀ j, ∀ (hj : j < ([⟨5, 1⟩, ⟨1, 1⟩, ⟨1, 1⟩] : List fw_devlog_e).length),
        j < devlog_first [⟨5, 1⟩, ⟨1, 1⟩, ⟨1, 1⟩] →
        (([⟨5, 1⟩, ⟨1, 1⟩, ⟨1, 1⟩] : List fw_devlog_e).get ⟨j, hj⟩).timestamp ≠ 0 →
        (([⟨5, 1⟩, ⟨1, 1⟩, ⟨1, 1⟩] : List fw_devlog_e).get
          ⟨devlog_first [⟨5, 1⟩, ⟨1, 1⟩, ⟨1, 1⟩], hf⟩).seqno <
          (([⟨5, 1⟩, ⟨1, 1⟩, ⟨1, 1⟩] : List fw_devlog_e).get ⟨j, hj⟩).seqno) ∧
    devlog_first [⟨5, 1⟩, ⟨1, 1⟩, ⟨1, 1⟩] = 1 :=
  ⟨devlog_c10_lowest_index [⟨5, 1⟩, ⟨1, 1⟩, ⟨1, 1⟩] ⟨1, by decide, by decide, by decide⟩,
   by decide⟩

/-- C3: logical index `i` maps to physical entry `(first + i) mod
entry_count` (the add-then-conditionally-subtract in `devlog_show` equals the
modulus when `first` and `i` are in range); a zero-timestamp mapped slot
renders nothing while the iterator still advances the position
unconditionally; and for `entry_count = 3`, `first = 2` the logical order of
physical indices is `[2, 0, 1]`. -/
theorem devlog_c3_order :
    (∀ first n fidx, first < n → fidx < n →
      devlog_index first n fidx = (first + fidx) % n) ∧
    (∀ (d : devlog_info) (v : Nat), 2 ≤ v →
      (d.log.getD (devlog_index d.first d.nentries (v - 2)) default).timestamp = 0 →
      devlog_show d v = DevlogLine.skip) ∧
    (∀ (d : devlog_info) (pos : Nat), (devlog_next d pos).2 = pos + 1) ∧
    ((List.range 3).map (fun i => devlog_index 2 3 i) = [2, 0, 1]) := by
  refine ⟨?_, ?_, ?_, by decide⟩
  · intro first n fidx hf hi
    unfold devlog_index
    by_cases h : first + fidx ≥ n
    · rw [if_pos h]
      have hsub : first + fidx - n < n := by omega
      rw [Nat.mod_eq_sub_mod h, Nat.mod_eq_of_lt hsub]
    · rw [if_neg h]
      rw [Nat.mod_eq_of_lt (by omega)]
  · intro d v hv hts
    unfold devlog_show
    rw [if_neg (by omega), if_pos hts]
  · intro d pos
    rfl

/-- Witness for C3: with `first = 2`, `entry_count = 3`, logical index 1 maps
to `(2 + 1) % 3 = 0`, and a concrete zero-timestamp slot renders as skip. -/
theorem devlog_c3_witness :
    ((2 : Nat) < 3 ∧ (1 : Nat) < 3 ∧ devlog_index 2 3 1 = (2 + 1) % 3) ∧
    (2 ≤ 4 ∧ devlog_show ⟨3, 2, [⟨1, 5⟩, ⟨2, 0⟩, ⟨3, 7⟩]⟩ 4 = DevlogLine.skip) :=
  ⟨⟨by decide, by decide, devlog_c3_order.1 2 3 1 (by decide) (by decide)⟩,
   ⟨by decide, devlog_c3_order.2.1 ⟨3, 2, [⟨1, 5⟩, ⟨2, 0⟩, ⟨3, 7⟩]⟩ 4 (by decide) (by decide)⟩⟩

/-! ## Field Decoder (`field_desc_show`)

Only the value computation `((unsigned long long)v >> p->start) & mask` with
`mask = (1ULL << p->width) - 1` is modelled; the column-budget line wrapping
only affects whitespace.  A C shift by ≥ 64 bits of a 64-bit operand is
undefined behaviour, which the embedding makes explicit by returning `none`
(the code has no width-64 special case; every descriptor table in the file
uses widths ≤ 10). -/
def field_desc_mask (width : Nat) : Option Nat :=
  if width ≥ 64 then none else some ((1 <<< width) % 2 ^ 64 - 1)

/-- Value printed by `field_desc_show` for a field `{start, width}` of the
raw 64-bit word `v`: `none` when the C expression is undefined. -/
def field_desc_value (v start width : Nat) : Option Nat :=
  if start ≥ 64 then none
  else (field_desc_mask width).map (fun m => (v >>> start) &&& m)

/-- C5 counterexample: for a width-64 field at offset 0 the claim demands the
full word unchanged, but the code computes `(1ULL << 64) - 1`, an undefined
shift with no special case, so no defined value — in particular not
`0xABCD` — is produced. -/
theorem field_desc_c5_counterexample :
    field_desc_value 0xABCD 0 64 = none ∧
    field_desc_value 0xABCD 0 64 ≠ some 0xABCD := by
  refine ⟨by decide, by decide⟩

/-- C5 (amended): for widths 1–63 (and offsets below 64) the Field Decoder
renders exactly `(word >> off) & ((1 << w) - 1)`; width 64 hits the undefined
shift-by-64 in `(1ULL << p->width) - 1`, which the code does not avoid, and
is never exercised by the file's descriptor tables (maximal width 10). -/
theorem field_desc_c5_extract (v off w : Nat)
    (hoff : off < 64) (hw1 : 1 ≤ w) (hw : w ≤ 63) :
    field_desc_value v off w = some ((v >>> off) &&& (2 ^ w - 1)) := by
  unfold field_desc_value field_desc_mask
  rw [if_neg (by omega), if_neg (by omega)]
  have h1 : (1 : Nat) <<< w = 2 ^ w := by
    rw [Nat.shiftLeft_eq, Nat.one_mul]
  have h2 : (2 : Nat) ^ w < 2 ^ 64 := Nat.pow_lt_pow_right (by omega) (by omega)
  rw [h1, Nat.mod_eq_of_lt h2]
  rfl

/-- Witness for C5: a 4-bit field at offset 0 of raw word `0xABCD` extracts
`0xD`. -/
theorem field_desc_c5_witness :
    (0 : Nat) < 64 ∧ (1 : Nat) ≤ 4 ∧ (4 : Nat) ≤ 63 ∧
    field_desc_value 0xABCD 0 4 = some 0xD :=
  ⟨by decide, by decide, by decide,
   (field_desc_c5_extract 0xABCD 0 4 (by decide) (by decide) (by decide)).trans (by decide)⟩

/-! ## MPS TCAM rows (`mps_tcam_show`, `tcamxy2valmask`) -/

/-- Embedding of `tcamxy2valmask`: `*mask = x | y;` and the 6-byte Ethernet
address is bytes 2..7 of the big-endian representation of `y`, i.e. the low
48 bits most-significant-byte first. -/
def tcamxy2valmask (x y : Nat) : List Nat × Nat :=
  ([(y >>> 40) % 256, (y >>> 32) % 256, (y >>> 24) % 256,
    (y >>> 16) % 256, (y >>> 8) % 256, y % 256], x ||| y)

/-- Rendering decision of `mps_tcam_show` for one row, as a function of the
ternary X- and Y-words: `if (tcamx & tcamy) { seq_printf(seq, "%3u         -\n",
idx); goto out; }` renders the placeholder dash; otherwise the row is decoded
(address/mask via `tcamxy2valmask`; the remaining fields come from registers
and the replication round-trip and are elided). -/
inductive MpsTcamRow where
  | dash (idx : Nat)
  | decoded (idx : Nat) (addr : List Nat) (mask : Nat)
deriving DecidableEq

/-- Row rendering decision of `mps_tcam_show`. -/
def mps_tcam_render (idx tcamx tcamy : Nat) : MpsTcamRow :=
  if tcamx &&& tcamy ≠ 0 then MpsTcamRow.dash idx
  else
    let vm := tcamxy2valmask tcamx tcamy
    MpsTcamRow.decoded idx vm.1 vm.2

/-- C7 counterexample: with `tcamx = 3`, `tcamy = 1` the AND is nonzero only
in bit 0 — not in every bit position — yet the code renders the dash
placeholder, because the test is `(tcamx & tcamy) != 0`, not an all-bits
test. -/
theorem mps_tcam_c7_counterexample :
    mps_tcam_render 0 3 1 = MpsTcamRow.dash 0 ∧
    ¬ (∀ k, k < 64 → Nat.testBit (3 &&& 1) k = true) := by
  refine ⟨by decide, by decide⟩

/-- C7 (amended): a row is rendered as the empty/no-match dash, and never
decoded further, exactly when `tcamx AND tcamy` is nonzero in at least one
bit position (`(tcamx & tcamy) != 0`); in particular `0xFF/0xFF` gives the
dash and `0x0F/0xF0` a decoded row. -/
theorem mps_tcam_c7_dash_iff :
    (∀ idx x y, mps_tcam_render idx x y = MpsTcamRow.dash idx ↔ x &&& y ≠ 0) ∧
    mps_tcam_render 7 0xFF 0xFF = MpsTcamRow.dash 7 ∧
    mps_tcam_render 7 0x0F 0xF0 = MpsTcamRow.decoded 7 [0, 0, 0, 0, 0, 0xF0] 0xFF := by
  refine ⟨?_, by decide, by decide⟩
  intro idx x y
  constructor
  · intro h
    unfold mps_tcam_render at h
    by_cases hz : x &&& y ≠ 0
    · exact hz
    · rw [if_neg hz] at h
      cases h
  · intro h
    unfold mps_tcam_render
    rw [if_pos h]

/-! ## Kernel ctype helpers

Linux `isspace` accepts space, `\t`, `\n`, `\v` (11), `\f` (12), `\r`, and —
per the kernel ctype table — the latin-1 hard space 0xA0. -/
def isspace_c (c : Char) : Bool :=
  c = ' ' || c = '\t' || c = '\n' || c.toNat = 11 || c.toNat = 12 ||
  c = '\r' || c.toNat = 160

def isdigit_c (c : Char) : Bool := '0' ≤ c && c ≤ '9'

def isxdigit_c (c : Char) : Bool :=
  isdigit_c c || ('a' ≤ c && c ≤ 'f') || ('A' ≤ c && c ≤ 'F')

def tolower_c (c : Char) : Char :=
  if 'A' ≤ c && c ≤ 'Z' then Char.ofNat (c.toNat + 32) else c

/-- Embedding of `xdigit2int` (`cxgb4_debugfs.c`):
`isdigit(c) ? c - '0' : tolower(c) - 'a' + 10`. -/
def xdigit2int (c : Char) : Nat :=
  if isdigit_c c then c.toNat - 48 else (tolower_c c).toNat - 97 + 10

/-- Modelled from the spec: `hex2val` is declared in a driver header not
under the sources; per the spec's hex-decoding descriptions it is the
standard hex-digit value, identical to `xdigit2int` above. -/
def hex2val (c : Char) : Nat :=
  if isdigit_c c then c.toNat - 48 else (tolower_c c).toNat - 97 + 10

/-! ## RSS secret key write-back parser (`rss_key_write`) -/

/-- Trailing-whitespace trim of `rss_key_write`:
`for (i = count; i > 0 && isspace(s[i - 1]); i--); s[i] = '\0';`.
The kept prefix is modelled; the write of the terminator means every read at
or past the trimmed length sees `'\0'` first (reads never go past it). -/
def rtrim (s : List Char) : List Char :=
  (s.reverse.dropWhile isspace_c).reverse

/-- Inner loop of `rss_key_write`: 8 hex digits accumulated into one 32-bit
word, `key[i] = (key[i] << 4) | hex2val(*p)` (8 nibbles never overflow u32);
any non-hex character — including the `'\0'` terminator when fewer than 8
characters remain — aborts with `-EINVAL` (`none`).  `acc` is the word so
far, `p` the read position, the last argument the digits still wanted. -/
def rss_parse_hex (s : List Char) : Nat → Nat → Nat → Option Nat
  | acc, _, 0 => some acc
  | acc, p, n + 1 =>
    let c := s.getD p (Char.ofNat 0)
    if isxdigit_c c then rss_parse_hex s (acc * 16 + hex2val c) (p + 1) n
    else none

/-- Outer loop of `rss_key_write`: words parsed from position `p`, 8 digits
each, most-significant word first (C index `i` runs 9 down to 0). -/
def rss_parse_from (s : List Char) (p : Nat) : Nat → Option (List Nat)
  | 0 => some []
  | n + 1 =>
    match rss_parse_hex s 0 p 8, rss_parse_from s (p + 8) n with
    | some w, some ws => some (w :: ws)
    | _, _ => none

/-- Embedding of `rss_key_write`: rejects inputs longer than 99 bytes
(`count > sizeof(s) - 1`), trims trailing whitespace, then parses exactly 80
hex digits into 10 words.  Returns the key as the C array `key[0..9]`
(i.e. least-significant-index first, so the parse order is reversed), or
`none` for `-EINVAL`. -/
def rss_key_write (inp : List Char) : Option (List Nat) :=
  if inp.length > 99 then none
  else (rss_parse_from (rtrim inp) 0 10).map List.reverse

lemma rss_parse_hex_isSome (s : List Char) :
    ∀ n p acc, (rss_parse_hex s acc p n).isSome = true ↔
      ∀ k, k < n → isxdigit_c (s.getD (p + k) (Char.ofNat 0)) = true := by
  intro n
  induction n with
  | zero =>
    intro p acc
    simp [rss_parse_hex]
  | succ n ih =>
    intro p acc
    constructor
    · intro h k hk
      unfold rss_parse_hex at h
      by_cases hx : isxdigit_c (s.getD p (Char.ofNat 0)) = true
      · rw [if_pos hx] at h
        cases k with
        | zero => simpa using hx
        | succ k' =>
          have := (ih (p + 1) _).1 h k' (by omega)
          have harith : p + 1 + k' = p + (k' + 1) := by omega
          rw [harith] at this
          exact this
      · rw [if_neg hx] at h
        simp at h
    · intro hall
      unfold rss_parse_hex
      have h0 : isxdigit_c (s.getD p (Char.ofNat 0)) = true := by
        have := hall 0 (by omega)
        simpa using this
      rw [if_pos h0]
      refine (ih (p + 1) _).2 ?_
      intro k hk
      have := hall (k + 1) (by omega)
      have harith : p + (k + 1) = p + 1 + k := by omega
      rw [harith] at this
      exact this

lemma rss_parse_from_isSome (s : List Char) :
    ∀ n p, (rss_parse_from s p n).isSome = true ↔
      ∀ k, k < 8 * n → isxdigit_c (s.getD (p + k) (Char.ofNat 0)) = true := by
  intro n
  induction n with
  | zero =>
    intro p
    simp [rss_parse_from]
  | succ n ih =>
    intro p
    constructor
    · intro h k hk
      unfold rss_parse_from at h
      rcases hw : rss_parse_hex s 0 p 8 with _ | w
      · rw [hw] at h; simp at h
      · rcases hws : rss_parse_from s (p + 8) n with _ | ws
        · rw [hw, hws] at h; simp at h
        · by_cases hk8 : k < 8
          · exact (rss_parse_hex_isSome s 8 p 0).1 (by rw [hw]; rfl) k hk8
          · have := (ih (p + 8)).1 (by rw [hws]; rfl) (k - 8) (by omega)
            have harith : p + 8 + (k - 8) = p + k := by omega
            rw [harith] at this
            exact this
    · intro hall
      unfold rss_parse_from
      have hw : (rss_parse_hex s 0 p 8).isSome = true :=
        (rss_parse_hex_isSome s 8 p 0).2 (fun k hk => hall k (by omega))
      have hws : (rss_parse_from s (p + 8) n).isSome = true := by
        refine (ih (p + 8)).2 ?_
        intro k hk
        have := hall (8 + k) (by omega)
        have harith : p + (8 + k) = p + 8 + k := by omega
        rw [harith] at this
        exact this
      rcases hw1 : rss_parse_hex s 0 p 8 with _ | w
      · rw [hw1] at hw; simp at hw
      · rcases hws1 : rss_parse_from s (p + 8) n with _ | ws
        · rw [hws1] at hws; simp at hws
        · rfl

/-- C8 counterexample: 81 zeros — one more hex digit than the claim allows —
are accepted: the parser consumes exactly the first 80 characters and never
checks that the input ends there, so the key is written.  (After trimming,
81 characters remain, not 80.) -/
theorem rss_key_c8_counterexample :
    rss_key_write (List.replicate 81 '0') = some (List.replicate 10 0) ∧
    rss_key_write (List.replicate 81 '0') ≠ none ∧
    (rtrim (List.replicate 81 '0')).length = 81 := by
  refine ⟨by decide, by decide, by decide⟩

/-- C8 (amended): the RSS key write accepts an input exactly when it is at
most 99 bytes long and, after trimming trailing whitespace, its first 80
characters are all hex digits (in particular at least 80 characters remain —
a shorter input fails on the `'\0'` terminator); characters after the 80th
are ignored rather than rejected, and no key is written on failure. -/
theorem rss_key_c8_accepts (inp : List Char) :
    (rss_key_write inp).isSome = true ↔
      inp.length ≤ 99 ∧
      ∀ k, k < 80 → isxdigit_c ((rtrim inp).getD k (Char.ofNat 0)) = true := by
  unfold rss_key_write
  by_cases hlen : inp.length > 99
  · rw [if_pos hlen]
    simp
    omega
  · rw [if_neg hlen]
    have hmap : (Option.map List.reverse (rss_parse_from (rtrim inp) 0 10)).isSome =
        (rss_parse_from (rtrim inp) 0 10).isSome := by
      rcases rss_parse_from (rtrim inp) 0 10 with _ | ws <;> rfl
    rw [hmap, rss_parse_from_isSome (rtrim inp) 10 0]
    constructor
    · intro h
      exact ⟨by omega, fun k hk => by simpa using h k (by omega)⟩
    · intro h k hk
      simpa using h.2 k (by omega)

/-- Witness for C8: exactly 80 hex digits are accepted. -/
theorem rss_key_c8_witness :
    (rss_key_write (List.replicate 80 'a')).isSome = true ∧
    (List.replicate 80 'a').length ≤ 99 :=
  ⟨(rss_key_c8_accepts (List.replicate 80 'a')).2 ⟨by decide, by decide⟩, by decide⟩

/-! ## Memory Map Assembler (`meminfo_show`, `mem_desc_cmp`) -/

/-- Embedding of `struct mem_desc`: `base`/`limit` are `unsigned int`
register values; `idx` indexes the `region[]` name table, with
`idx ≥ 24 = ARRAY_SIZE(region)` the "hidden" sentinel (holes and
not-present regions), and `limit = 0` meaning "no explicit limit". -/
structure mem_desc where
  base : Nat
  limit : Nat
  idx : Nat
deriving DecidableEq

/-- Embedding of `mem_desc_cmp`: `return a->base - b->base;` — the unsigned
difference implicitly converted to `int` (two's-complement
reinterpretation). -/
def mem_desc_cmp (a b : mem_desc) : Int :=
  let d : Nat := (a.base + 2 ^ 32 - b.base % 2 ^ 32) % 2 ^ 32
  if d < 2 ^ 31 then (d : Int) else (d : Int) - 2 ^ 32

/-- Embedding of the region-rendering loop of `meminfo_show` over the sorted
`mem[]` array: hidden entries (`idx ≥ ARRAY_SIZE(region) = 24`) are skipped
before limit inference; a visible entry with `limit == 0` takes
`mem[i + 1].base - 1` (u32 arithmetic) when a next entry exists, else `~0`;
output tuples are `(idx, base, limit)`. -/
def meminfo_regions : List mem_desc → List (Nat × Nat × Nat)
  | [] => []
  | d :: rest =>
    (if 24 ≤ d.idx then []
     else
       [(d.idx, d.base,
         if d.limit = 0 then
           match rest with
           | [] => 2 ^ 32 - 1
           | next :: _ => (next.base + 2 ^ 32 - 1) % 2 ^ 32
         else d.limit)]) ++ meminfo_regions rest

/-- C9: after sorting, every visible region lacking an explicit limit takes
the next entry's base minus 1 (exclusive) as its limit, or the unbounded
marker `~0 = 2^32 - 1` when it is last; an explicit limit is kept. -/
theorem meminfo_c9_limits :
    (∀ (d next : mem_desc) (rest : List mem_desc), d.idx < 24 → d.limit = 0 →
      meminfo_regions (d :: next :: rest) =
        (d.idx, d.base, (next.base + 2 ^ 32 - 1) % 2 ^ 32) ::
          meminfo_regions (next :: rest)) ∧
    (∀ d : mem_desc, d.idx < 24 → d.limit = 0 →
      meminfo_regions [d] = [(d.idx, d.base, 2 ^ 32 - 1)]) ∧
    (∀ (d next : mem_desc) (rest : List mem_desc), d.idx < 24 → d.limit ≠ 0 →
      meminfo_regions (d :: next :: rest) =
        (d.idx, d.base, d.limit) :: meminfo_regions (next :: rest)) := by
  refine ⟨?_, ?_, ?_⟩
  · intro d next rest hidx hlim
    simp only [meminfo_regions]
    rw [if_neg (by omega), if_pos hlim]
    rfl
  · intro d hidx hlim
    simp only [meminfo_regions]
    rw [if_neg (by omega), if_pos hlim]
    rfl
  · intro d next rest hidx hlim
    simp only [meminfo_regions]
    rw [if_neg (by omega), if_neg hlim]
    rfl

/-- Witness for C9 on the claim's examples: `{A: base 100, limit 200}`
followed by `{B: base 200, no limit}` leaves B unbounded, and
`{A: base 100, no limit}, {B: base 300, no limit}` infers A's limit 299. -/
theorem meminfo_c9_witness :
    meminfo_regions [⟨100, 200, 0⟩, ⟨200, 0, 1⟩] =
      [(0, 100, 200), (1, 200, 2 ^ 32 - 1)] ∧
    meminfo_regions [⟨100, 0, 0⟩, ⟨300, 0, 1⟩] =
      [(0, 100, 299), (1, 300, 2 ^ 32 - 1)] := by
  constructor
  · rw [meminfo_c9_limits.2.2 ⟨100, 200, 0⟩ ⟨200, 0, 1⟩ [] (by decide) (by decide),
      meminfo_c9_limits.2.1 ⟨200, 0, 1⟩ (by decide) (by decide)]
  · rw [meminfo_c9_limits.1 ⟨100, 0, 0⟩ ⟨300, 0, 1⟩ [] (by decide) (by decide),
      meminfo_c9_limits.2.1 ⟨300, 0, 1⟩ (by decide) (by decide)]
    decide


/-! ## MPS trace filter write-back parser (`mps_trc_write`) -/

/-- Modelled from the spec: `TRACE_LEN`, the fixed byte cap on total pattern
data ("total pattern data is capped at a fixed byte length"), is defined in a
driver header not under the sources; the upstream value is 112 bytes.  The
theorems below do not depend on the value. -/
def TRACE_LEN : Nat := 112

/-- Modelled from the spec: `TFMINPKTSIZE_M`, the register field maximum for
`minlen=` ("minlen=<uint ≤ field-max>"), from a register header not under
the sources (upstream `0x1ff`). -/
def TFMINPKTSIZE_M : Nat := 0x1ff

/-- Modelled from the spec: `MAX_NPORTS`, the bound of the `chan_map`
validity check for `rx`/`tx` capture ports, from a header not under the
sources (upstream 4). -/
def MAX_NPORTS : Nat := 4

/-- Adapter-side context of `mps_trc_write`: the `trace_rss` mode flag, the
trace-filter index decoded from the inode pointer, the channel map, and the
return value of the external `t4_set_trace_filter` device call. -/
structure trc_ctx where
  trace_rss : Bool
  trcidx : Nat
  chan_map : Nat → Nat
  apply_ret : Int

/-- Embedding of `struct trace_params` (declared in a header not under the
sources; its fields are pinned by their uses in `mps_trc_write` and
`mps_trc_show`): `data`/`mask` are `TRACE_LEN / 4 = 28` 32-bit words. -/
structure trace_params where
  data : List Nat
  mask : List Nat
  snap_len : Nat
  min_len : Nat
  skip_ofst : Nat
  skip_len : Nat
  invert : Bool
  port : Nat
deriving DecidableEq

/-- `memset(&tp, 0, sizeof(tp)); tp.port = TRC_PORT_NONE;` with
`TRC_PORT_NONE = 0xff`. -/
def trace_params.init : trace_params :=
  ⟨List.replicate 28 0, List.replicate 28 0, 0, 0, 0, 0, false, 0xff⟩

/-- Register writes and the final filter application performed by
`mps_trc_write`, identified symbolically: `cfg` is the `MPS_TRC_CFG_A`
RSS-multi toggle, `rss_ctl_t5` the `MPS_T5_TRC_RSS_CONTROL_A` write
(adapters without `trace_rss`), `rss_ctl k` the per-filter
`MPS_TRC_FILTER<k>_RSS_CONTROL_A` write, and `apply_filter` the
`t4_set_trace_filter` call (`none` for the disable path, whose
`trace_params` are uninitialised and unread). -/
inductive TrcEvent where
  | cfg (v : Nat)
  | rss_ctl_t5 (v : Nat)
  | rss_ctl (idx : Nat) (v : Nat)
  | apply_filter (enable : Bool) (tp : Option trace_params) (idx : Nat)
deriving DecidableEq

/-- Parse-loop exits other than success: `inval` (`goto inval`, `-EINVAL`),
`efbig` (pattern data overflow, `-EFBIG`), and `silent` — the `qid=`
`kstrtouint` failure, which jumps to `out` without touching `count` and so
returns success without applying anything. -/
inductive TrcExit where
  | inval
  | efbig
  | silent
deriving DecidableEq

/-- Embedding of kernel `kstrtouint` base 10: optional leading `+`, a
nonempty run of decimal digits, optionally one trailing newline, exact value
below `2^32` (overflow gives `-ERANGE`). -/
def kstrtouint (s : List Char) : Option Nat :=
  let s1 := if s.head? = some '+' then s.tail else s
  let ds := s1.takeWhile isdigit_c
  let rest := s1.dropWhile isdigit_c
  if ds.isEmpty then none
  else if ¬ (rest = [] ∨ rest = ['\n']) then none
  else
    let v := ds.foldl (fun a c => a * 10 + (c.toNat - 48)) 0
    if v < 2 ^ 32 then some v else none

/-- `!strncmp(word, pre, strlen(pre))` for a literal `pre`. -/
def strncmpEq (pre w : List Char) : Bool := w.take pre.length = pre

/-- The C string contents after `copy_from_user` into the zero-filled buffer
plus `if (s[count - 1] == '\n') s[count - 1] = '\0';`: a trailing newline is
dropped and the effective string ends at the first NUL.  (For an empty write
the C code reads `s[-1]`, which is out of bounds; the model skips the
strip.) -/
def trc_cstr (inp : List Char) : List Char :=
  (if inp.getLast? = some '\n' then inp.dropLast else inp).takeWhile
    (fun c => c ≠ Char.ofNat 0)

/-- Tokenisation of the parse loop: `while (isspace(*p)) p++;
word = strsep(&p, " "); if (!*word) break;` — leading kernel whitespace is
skipped, then the token runs to the next `' '` (other whitespace stays
inside a token).  The fuel bounds the loop by the string length: every
iteration consumes at least one character. -/
def trcTokensF : Nat → List Char → List (List Char)
  | 0, _ => []
  | fuel + 1, s =>
    if (s.dropWhile isspace_c).isEmpty then []
    else
      (s.dropWhile isspace_c).takeWhile (fun c => c ≠ ' ') ::
        trcTokensF fuel (((s.dropWhile isspace_c).dropWhile (fun c => c ≠ ' ')).tail)

def trcTokens (s : List Char) : List (List Char) := trcTokensF (s.length + 1) s

/-- Data-nibble loop of a pattern token: `while (isxdigit(*word)) { if (i >=
TRACE_LEN * 2) { count = -EFBIG; goto out; } *data = (*data << 4) +
xdigit2int(*word++); if (++i % 8 == 0) data++; }` — nibble `i` lands in word
`i / 8` (u32 arithmetic, high nibbles first).  Returns the updated words,
the new nibble count, and the unconsumed rest of the token. -/
def patData : List Nat → Nat → List Char → Except TrcExit (List Nat × Nat × List Char)
  | dat, i, [] => Except.ok (dat, i, [])
  | dat, i, c :: cs =>
    if isxdigit_c c then
      if i ≥ TRACE_LEN * 2 then Except.error TrcExit.efbig
      else
        patData (dat.set (i / 8) ((dat.getD (i / 8) 0 * 16 + xdigit2int c) % 2 ^ 32))
          (i + 1) cs
    else Except.ok (dat, i, c :: cs)

/-- Mask-nibble loop after `'/'`: `while (isxdigit(*word)) { if (j >= i)
goto inval; *mask = (*mask << 4) + xdigit2int(*word++); if (++j % 8 == 0)
mask++; }`. -/
def patMask : List Nat → Nat → Nat → List Char → Except TrcExit (List Nat × Nat × List Char)
  | msk, j, _, [] => Except.ok (msk, j, [])
  | msk, j, i, c :: cs =>
    if isxdigit_c c then
      if j ≥ i then Except.error TrcExit.inval
      else
        patMask (msk.set (j / 8) ((msk.getD (j / 8) 0 * 16 + xdigit2int c) % 2 ^ 32))
          (j + 1) i cs
    else Except.ok (msk, j, c :: cs)

/-- All-ones fill when no explicit mask is given: `for (; i - j >= 8; j += 8)
*mask++ = 0xffffffff;` — the fuel `i` bounds the iterations. -/
def maskFill : Nat → List Nat → Nat → Nat → List Nat × Nat
  | 0, msk, j, _ => (msk, j)
  | fuel + 1, msk, j, i =>
    if i - j ≥ 8 then maskFill fuel (msk.set (j / 8) 0xffffffff) (j + 8) i
    else (msk, j)

/-- The 8-byte alignment epilogue of a pattern token: `if (i % 8) { *data <<=
(8 - i % 8) * 4; *mask <<= (8 - i % 8) * 4; i = (i + 15) & ~15; }` — both
pointers sit on word `i / 8` at this point. -/
def patAlign (tp : trace_params) (dat msk : List Nat) (i : Nat) :
    trace_params × Nat :=
  if i % 8 ≠ 0 then
    ({ tp with
        data := dat.set (i / 8) ((dat.getD (i / 8) 0 * 2 ^ ((8 - i % 8) * 4)) % 2 ^ 32),
        mask := msk.set (i / 8) ((msk.getD (i / 8) 0 * 2 ^ ((8 - i % 8) * 4)) % 2 ^ 32) },
      (i + 15) - (i + 15) % 16)
  else ({ tp with data := dat, mask := msk }, i)

/-- Anchor handling: `if (*word == '@') { end = (char *)word + 1; ret =
kstrtouint(end, 10, &j); if (*end && *end != '\n') goto inval; if (j & 7)
goto inval; j /= 8; if (j < tp.skip_ofst) goto inval; if (j - tp.skip_ofst >
31) goto inval; tp.skip_len = j - tp.skip_ofst; }` — `ret` is never
checked, so when `kstrtouint` fails `j` keeps its stale nibble-counter value
from the mask phase; the `*end` test only lets an empty or newline-leading
rest through (on which `kstrtouint` always fails). -/
def patAnchor (tp : trace_params) (dat msk : List Nat) (i j : Nat)
    (cs : List Char) : Except TrcExit (trace_params × Nat) :=
  if cs.head? = some '@' then
    if cs.tail ≠ [] ∧ cs.tail.head? ≠ some '\n' then Except.error TrcExit.inval
    else if ((kstrtouint cs.tail).getD j) % 8 ≠ 0 then Except.error TrcExit.inval
    else if ((kstrtouint cs.tail).getD j) / 8 < tp.skip_ofst then Except.error TrcExit.inval
    else if ((kstrtouint cs.tail).getD j) / 8 - tp.skip_ofst > 31 then Except.error TrcExit.inval
    else
      Except.ok (patAlign
        { tp with skip_len := ((kstrtouint cs.tail).getD j) / 8 - tp.skip_ofst } dat msk i)
  else Except.ok (patAlign tp dat msk i)

/-- One pattern token (first character already known to be a hex digit):
split bookkeeping (`if (i) { if (tp.skip_len) goto inval; tp.skip_ofst =
i / 16; }`), data nibbles, the mask (explicit after `'/'` with the
longer/shorter checks, else the all-ones fill plus a partial-word mask
`(1 << (i % 8) * 4) - 1` on word `i / 8`), anchor, and alignment. -/
def patternTok (tp : trace_params) (i : Nat) (w : List Char) :
    Except TrcExit (trace_params × Nat) :=
  match
    (if i ≠ 0 then
      (if tp.skip_len ≠ 0 then none else some { tp with skip_ofst := i / 16 })
     else some tp) with
  | none => Except.error TrcExit.inval
  | some tp1 =>
    match patData tp1.data i w with
    | Except.error e => Except.error e
    | Except.ok (dat, i2, cs) =>
      if cs.head? = some '/' then
        match patMask tp1.mask i i2 cs.tail with
        | Except.error e => Except.error e
        | Except.ok (msk, j2, cs2) =>
          if i2 ≠ j2 then Except.error TrcExit.inval
          else patAnchor tp1 dat msk i2 j2 cs2
      else
        patAnchor tp1 dat
          (if i2 % 8 ≠ 0 then
            ((maskFill i2 tp1.mask i i2).1).set ((maskFill i2 tp1.mask i i2).2 / 8)
              (2 ^ (i2 % 8 * 4) - 1)
           else (maskFill i2 tp1.mask i i2).1)
          i2 (maskFill i2 tp1.mask i i2).2 cs

/-- Non-`qid=` token dispatch of the parse loop, in source order:
`snaplen=` (≤ 9600), `minlen=` (≤ `TFMINPKTSIZE_M`), `not`, `loopback<n>`,
`tx<n>`, `rx<n>` (each only while no port is chosen yet; `tx`/`rx` check the
adapter `chan_map`), else a hex pattern token — a non-hex first character is
`-EINVAL`. -/
def procTokenRest (ctx : trc_ctx) (tp : trace_params) (i : Nat) (w : List Char) :
    Except TrcExit (trace_params × Nat) :=
  if strncmpEq "snaplen=".toList w then
    match kstrtouint (w.drop 8) with
    | none => Except.error TrcExit.inval
    | some j =>
      if j > 9600 then Except.error TrcExit.inval
      else Except.ok ({ tp with snap_len := j }, i)
  else if strncmpEq "minlen=".toList w then
    match kstrtouint (w.drop 7) with
    | none => Except.error TrcExit.inval
    | some j =>
      if j > TFMINPKTSIZE_M then Except.error TrcExit.inval
      else Except.ok ({ tp with min_len := j }, i)
  else if w = "not".toList then
    Except.ok ({ tp with invert := ¬ tp.invert }, i)
  else if strncmpEq "loopback".toList w ∧ tp.port = 0xff then
    if w.getD 8 (Char.ofNat 0) < '0' ∨ w.getD 8 (Char.ofNat 0) > '3' ∨
        w.getD 9 (Char.ofNat 0) ≠ Char.ofNat 0 then
      Except.error TrcExit.inval
    else Except.ok ({ tp with port := (w.getD 8 (Char.ofNat 0)).toNat - 48 + 8 }, i)
  else if strncmpEq "tx".toList w ∧ tp.port = 0xff then
    if w.getD 2 (Char.ofNat 0) < '0' ∨ w.getD 2 (Char.ofNat 0) > '3' ∨
        w.getD 3 (Char.ofNat 0) ≠ Char.ofNat 0 then
      Except.error TrcExit.inval
    else if ctx.chan_map (((w.getD 2 (Char.ofNat 0)).toNat - 48 + 4) % 4) ≥ MAX_NPORTS then
      Except.error TrcExit.inval
    else Except.ok ({ tp with port := (w.getD 2 (Char.ofNat 0)).toNat - 48 + 4 }, i)
  else if strncmpEq "rx".toList w ∧ tp.port = 0xff then
    if w.getD 2 (Char.ofNat 0) < '0' ∨ w.getD 2 (Char.ofNat 0) > '3' ∨
        w.getD 3 (Char.ofNat 0) ≠ Char.ofNat 0 then
      Except.error TrcExit.inval
    else if ctx.chan_map ((w.getD 2 (Char.ofNat 0)).toNat - 48) ≥ MAX_NPORTS then
      Except.error TrcExit.inval
    else Except.ok ({ tp with port := (w.getD 2 (Char.ofNat 0)).toNat - 48 }, i)
  else if ¬ isxdigit_c (w.getD 0 (Char.ofNat 0)) then Except.error TrcExit.inval
  else patternTok tp i w

/-- One token of the parse loop.  `qid=` is dispatched first: on a
`kstrtouint` failure it exits silently (`goto out`, `count` untouched); on
success it immediately writes the RSS-control register for the channel
(`MPS_T5_TRC_RSS_CONTROL_A` when the adapter lacks `trace_rss`, else the
per-filter register selected by `trcidx`) and stores nothing in
`trace_params`.  The second component is the register write the token
performs, if any. -/
def procToken (ctx : trc_ctx) (tp : trace_params) (i : Nat) (w : List Char) :
    Except TrcExit (trace_params × Nat) × Option TrcEvent :=
  if strncmpEq "qid=".toList w then
    match kstrtouint (w.drop 4) with
    | none => (Except.error TrcExit.silent, none)
    | some j =>
      if ¬ ctx.trace_rss then (Except.ok (tp, i), some (TrcEvent.rss_ctl_t5 j))
      else (Except.ok (tp, i), some (TrcEvent.rss_ctl ctx.trcidx j))
  else (procTokenRest ctx tp i w, none)

/-- The parse loop over the token list, collecting register-write events; an
empty token breaks the loop, errors abort it. -/
def procTokens (ctx : trc_ctx) :
    trace_params × Nat → List (List Char) →
      Except TrcExit (trace_params × Nat) × List TrcEvent
  | st, [] => (Except.ok st, [])
  | st, w :: ws =>
    if w.isEmpty then (Except.ok st, [])
    else
      match procToken ctx st.1 st.2 w with
      | (Except.error e, ev) => (Except.error e, ev.toList)
      | (Except.ok st1, ev) =>
        ((procTokens ctx st1 ws).1, ev.toList ++ (procTokens ctx st1 ws).2)

/-- The full parse of a write buffer: loop state starts from the zeroed
`trace_params` with `port = TRC_PORT_NONE` and nibble count 0. -/
def trcParsed (ctx : trc_ctx) (inp : List Char) :
    Except TrcExit (trace_params × Nat) × List TrcEvent :=
  procTokens ctx (trace_params.init, 0) (trcTokens (trc_cstr inp))

/-- Embedding of `mps_trc_write`: returns the `ssize_t` result and the
ordered register writes / filter application.  Inputs over 1024 bytes are
`-EFBIG` before anything else; `"disable"` jumps straight to the apply with
`enable = 0`; otherwise the RSS-multi `MPS_TRC_CFG_A` toggle
(`TRC_RSS_ENABLE = 0x33` / `TRC_RSS_DISABLE = 0x13`) is written before any
token is parsed, the tokens are processed (writing an RSS-control register
at each valid `qid=`), and only a fully parsed command with a chosen port
(`tp.port != TRC_PORT_NONE`) reaches `t4_set_trace_filter`. -/
def mps_trc_write (ctx : trc_ctx) (inp : List Char) : Int × List TrcEvent :=
  if inp.length > 1024 then (-27, [])
  else if trc_cstr inp = "disable".toList then
    ((if ctx.apply_ret ≠ 0 then ctx.apply_ret else (inp.length : Int)),
      [TrcEvent.apply_filter false none ctx.trcidx])
  else
    match trcParsed ctx inp with
    | (Except.error TrcExit.inval, evs) =>
      (-22, TrcEvent.cfg (if ctx.trace_rss then 0x33 else 0x13) :: evs)
    | (Except.error TrcExit.efbig, evs) =>
      (-27, TrcEvent.cfg (if ctx.trace_rss then 0x33 else 0x13) :: evs)
    | (Except.error TrcExit.silent, evs) =>
      ((inp.length : Int), TrcEvent.cfg (if ctx.trace_rss then 0x33 else 0x13) :: evs)
    | (Except.ok (tp, _), evs) =>
      if tp.port = 0xff then
        (-22, TrcEvent.cfg (if ctx.trace_rss then 0x33 else 0x13) :: evs)
      else
        ((if ctx.apply_ret ≠ 0 then ctx.apply_ret else (inp.length : Int)),
          TrcEvent.cfg (if ctx.trace_rss then 0x33 else 0x13) ::
            (evs ++ [TrcEvent.apply_filter true (some tp) ctx.trcidx]))

/-- Validation outcome of the non-disable path: `true` iff every token
parsed and a capture port was chosen — the condition under which
`t4_set_trace_filter` is reached. -/
def trcValidated (ctx : trc_ctx) (inp : List Char) : Bool :=
  match (trcParsed ctx inp).1 with
  | Except.ok (tp, _) => tp.port != 0xff
  | Except.error _ => false

/-- The register writes the command may perform before being fully
validated: the RSS-multi toggle and the `qid=` RSS-control writes. -/
def isTrcQuirk : TrcEvent → Bool
  | TrcEvent.cfg _ => true
  | TrcEvent.rss_ctl_t5 _ => true
  | TrcEvent.rss_ctl _ _ => true
  | TrcEvent.apply_filter _ _ _ => false

lemma procToken_event_rss (ctx : trc_ctx) (tp : trace_params) (i : Nat)
    (w : List Char) (ev : TrcEvent) (h : (procToken ctx tp i w).2 = some ev) :
    isTrcQuirk ev = true := by
  unfold procToken at h
  by_cases hq : strncmpEq "qid=".toList w = true
  · rw [if_pos hq] at h
    rcases hk : kstrtouint (w.drop 4) with _ | j <;> rw [hk] at h
    · cases h
    · by_cases htr : ctx.trace_rss = true
      · simp [htr] at h
        rw [← h]
        rfl
      · simp [htr] at h
        rw [← h]
        rfl
  · rw [if_neg hq] at h
    cases h

lemma procTokens_events_quirk (ctx : trc_ctx) :
    ∀ (ws : List (List Char)) (st : trace_params × Nat) (ev : TrcEvent),
      ev ∈ (procTokens ctx st ws).2 → isTrcQuirk ev = true := by
  intro ws
  induction ws with
  | nil =>
    intro st ev h
    simp [procTokens] at h
  | cons w ws ih =>
    intro st ev h
    unfold procTokens at h
    by_cases he : w.isEmpty = true
    · rw [if_pos he] at h
      simp at h
    · rw [if_neg he] at h
      rcases hp : procToken ctx st.1 st.2 w with ⟨r, evop⟩
      rw [hp] at h
      rcases r with e | st1
      · rcases evop with _ | ev0
        · simp at h
        · simp at h
          rw [h]
          exact procToken_event_rss ctx st.1 st.2 w ev0 (by rw [hp])
      · simp only at h
        rcases List.mem_append.1 h with hl | hr
        · rcases evop with _ | ev0
          · simp at hl
          · simp at hl
            rw [hl]
            exact procToken_event_rss ctx st.1 st.2 w ev0 (by rw [hp])
        · exact ih st1 ev hr

/-- C6 (amended): every register access `mps_trc_write` performs is either
the RSS-multi routing toggle written as soon as enable-mode is determined, a
per-channel RSS-control write triggered immediately by a valid `qid=` token
during parsing, or the final `t4_set_trace_filter` application; and unless
the input is exactly `"disable"`, the application is reached only when the
whole command validated with a chosen port — so a command that fails
validation has written nothing beyond the toggle and the `qid=` side
effects.  (A malformed `qid=` value additionally aborts with a success
return instead of `-EINVAL`; see the counterexample.) -/
theorem mps_trc_c6_validate_before_write (ctx : trc_ctx) (inp : List Char) :
    (∀ ev ∈ (mps_trc_write ctx inp).2,
      isTrcQuirk ev = true ∨ ∃ en otp k, ev = TrcEvent.apply_filter en otp k) ∧
    (trc_cstr inp ≠ "disable".toList → trcValidated ctx inp = false →
      ∀ ev ∈ (mps_trc_write ctx inp).2, isTrcQuirk ev = true) := by
  by_cases hlen : inp.length > 1024
  · have heq : (mps_trc_write ctx inp).2 = [] := by
      unfold mps_trc_write
      rw [if_pos hlen]
    rw [heq]
    exact ⟨fun ev hev => absurd hev (by simp), fun _ _ ev hev => absurd hev (by simp)⟩
  · by_cases hdis : trc_cstr inp = "disable".toList
    · have heq : (mps_trc_write ctx inp).2 =
          [TrcEvent.apply_filter false none ctx.trcidx] := by
        unfold mps_trc_write
        rw [if_neg hlen, if_pos hdis]
      rw [heq]
      constructor
      · intro ev hev
        simp at hev
        rw [hev]
        exact Or.inr ⟨false, none, ctx.trcidx, rfl⟩
      · intro hnd _
        exact absurd hdis hnd
    · rcases hres : trcParsed ctx inp with ⟨r, evs⟩
      have hquirk : ∀ ev ∈ evs, isTrcQuirk ev = true := by
        intro ev hev
        have h2 := procTokens_events_quirk ctx (trcTokens (trc_cstr inp))
          (trace_params.init, 0) ev
        have h3 : (procTokens ctx (trace_params.init, 0) (trcTokens (trc_cstr inp))).2
            = evs := by
          show (trcParsed ctx inp).2 = evs
          rw [hres]
        rw [h3] at h2
        exact h2 hev
      rcases r with e | st
      · have heq : (mps_trc_write ctx inp).2 =
            TrcEvent.cfg (if ctx.trace_rss then 0x33 else 0x13) :: evs := by
          unfold mps_trc_write
          rw [if_neg hlen, if_neg hdis, hres]
          rcases e with _ | _ | _ <;> rfl
        rw [heq]
        constructor
        · intro ev hev
          rcases List.mem_cons.1 hev with h0 | h1
          · rw [h0]; exact Or.inl rfl
          · exact Or.inl (hquirk ev h1)
        · intro _ _ ev hev
          rcases List.mem_cons.1 hev with h0 | h1
          · rw [h0]; rfl
          · exact hquirk ev h1
      · rcases st with ⟨tp, i2⟩
        by_cases hport : tp.port = 0xff
        · have heq : (mps_trc_write ctx inp).2 =
              TrcEvent.cfg (if ctx.trace_rss then 0x33 else 0x13) :: evs := by
            unfold mps_trc_write
            rw [if_neg hlen, if_neg hdis, hres]
            show (if tp.port = 0xff then
                ((-22 : Int), TrcEvent.cfg (if ctx.trace_rss then 0x33 else 0x13) :: evs)
              else
                ((if ctx.apply_ret ≠ 0 then ctx.apply_ret else (inp.length : Int)),
                  TrcEvent.cfg (if ctx.trace_rss then 0x33 else 0x13) ::
                    (evs ++ [TrcEvent.apply_filter true (some tp) ctx.trcidx]))).2 = _
            rw [if_pos hport]
          rw [heq]
          constructor
          · intro ev hev
            rcases List.mem_cons.1 hev with h0 | h1
            · rw [h0]; exact Or.inl rfl
            · exact Or.inl (hquirk ev h1)
          · intro _ _ ev hev
            rcases List.mem_cons.1 hev with h0 | h1
            · rw [h0]; rfl
            · exact hquirk ev h1
        · have heq : (mps_trc_write ctx inp).2 =
              TrcEvent.cfg (if ctx.trace_rss then 0x33 else 0x13) ::
                (evs ++ [TrcEvent.apply_filter true (some tp) ctx.trcidx]) := by
            unfold mps_trc_write
            rw [if_neg hlen, if_neg hdis, hres]
            show (if tp.port = 0xff then
                ((-22 : Int), TrcEvent.cfg (if ctx.trace_rss then 0x33 else 0x13) :: evs)
              else
                ((if ctx.apply_ret ≠ 0 then ctx.apply_ret else (inp.length : Int)),
                  TrcEvent.cfg (if ctx.trace_rss then 0x33 else 0x13) ::
                    (evs ++ [TrcEvent.apply_filter true (some tp) ctx.trcidx]))).2 = _
            rw [if_neg hport]
          rw [heq]
          constructor
          · intro ev hev
            rcases List.mem_cons.1 hev with h0 | h1
            · rw [h0]; exact Or.inl rfl
            · rcases List.mem_append.1 h1 with h2 | h3
              · exact Or.inl (hquirk ev h2)
              · simp at h3
                rw [h3]
                exact Or.inr ⟨true, some tp, ctx.trcidx, rfl⟩
          · intro _ hvalf
            have hvt : trcValidated ctx inp = true := by
              unfold trcValidated
              rw [hres]
              simp [bne_iff_ne, hport]
            rw [hvt] at hvalf
            exact Bool.noConfusion hvalf

/-- C6 counterexample, two concrete inputs with a default adapter context
(`trace_rss` off, filter 0, all channels mapped, device apply succeeding):
`"qid=z"` contains a malformed token but returns success (the byte count 5,
not `-EINVAL`) without applying anything; `"qid=7 zz"` fails with `-EINVAL`
yet has already written the `MPS_T5_TRC_RSS_CONTROL_A` register — a register
other than the RSS-multi toggle — during parsing. -/
theorem mps_trc_c6_counterexample :
    ((mps_trc_write ⟨false, 0, fun _ => 0, 0⟩ "qid=z".toList).1 = 5 ∧
      (mps_trc_write ⟨false, 0, fun _ => 0, 0⟩ "qid=z".toList).1 ≠ -22 ∧
      (∀ en otp k, TrcEvent.apply_filter en otp k ∉
        (mps_trc_write ⟨false, 0, fun _ => 0, 0⟩ "qid=z".toList).2)) ∧
    ((mps_trc_write ⟨false, 0, fun _ => 0, 0⟩ "qid=7 zz".toList).1 = -22 ∧
      TrcEvent.rss_ctl_t5 7 ∈
        (mps_trc_write ⟨false, 0, fun _ => 0, 0⟩ "qid=7 zz".toList).2) := by
  refine ⟨⟨by decide, by decide, ?_⟩, ⟨by decide, by decide⟩⟩
  intro en otp k
  have heq : (mps_trc_write ⟨false, 0, fun _ => 0, 0⟩ "qid=z".toList).2 =
      [TrcEvent.cfg 0x13] := by decide
  rw [heq]
  simp

/-- Witness for C6 at the failing command `"rx0 zz"`: it is not
`"disable"`, it fails validation, and its whole write trace is quirk writes
only (here just the RSS-multi toggle). -/
theorem mps_trc_c6_witness :
    (trc_cstr "rx0 zz".toList ≠ "disable".toList ∧
      trcValidated ⟨false, 0, fun _ => 0, 0⟩ "rx0 zz".toList = false) ∧
    (∀ ev ∈ (mps_trc_write ⟨false, 0, fun _ => 0, 0⟩ "rx0 zz".toList).2,
      isTrcQuirk ev = true) :=
  ⟨⟨by decide, by decide⟩,
   (mps_trc_c6_validate_before_write ⟨false, 0, fun _ => 0, 0⟩ "rx0 zz".toList).2
     (by decide) (by decide)⟩
